import Mathlib

/-!
Verification of the core formatter routines of the `mago` PHP tooling
repository: statement blocks (`block.rs`), method-call chains (`call.rs`),
function-like parameter lists (`parameters.rs`) and source-file exclusion
(`source.rs`), shallowly embedded in Lean.

Functions defined in crates outside the excerpt (child formatting,
comment printing, statement-sequence printing, glob matching) are passed
as oracle fields of the `Formatter` structure / explicit arguments, so
every theorem holds for an arbitrary behaviour of those collaborators.
-/

set_option maxHeartbeats 1000000

namespace Mago

/-- A half-open byte range `[start, stop)`; `stop` is named `end` in the
source.  `join` follows the spec: `[min(a.start, b.start), max(a.end, b.end))`. -/
structure Span where
  start : Nat
  stop : Nat
deriving DecidableEq, Repr

def Span.join (a b : Span) : Span :=
  ⟨Nat.min a.start b.start, Nat.max a.stop b.stop⟩

/-- Comment attachment filter (leading / trailing / dangling bits);
only the `all()` value is used by the excerpted code. -/
structure CommentFlags where
  leading : Bool
  trailing : Bool
  dangling : Bool
deriving DecidableEq, Repr

def CommentFlags.all : CommentFlags := ⟨true, true, true⟩

/-- The three kinds of conditional line breaks of the Document IR
(`Line::hardline()`, `Line::softline()`, `Line::default()`). -/
inductive LineKind where
  | hard
  | soft
  | line
deriving DecidableEq, Repr

/-- The Document intermediate representation (spec §3).  `Group` carries its
children and the `should_break` flag (`Group::new` sets it to `false`,
`with_break` overrides it).  `Str` is `Document::String`, `Arr` is
`Document::Array`. -/
inductive Document where
  | Str : String → Document
  | Line : LineKind → Document
  | Indent : List Document → Document
  | Group : List Document → Bool → Document
  | IfBreak : Document → Document → Document
  | BreakParent : Document
  | Arr : List Document → Document
  | Empty : Document

/-- `Document::space()` smart constructor. -/
def Document.space : Document := Document.Str " "

/-- The break flag of a top-level `Group`, if the document is one. -/
def Document.groupBreakFlag : Document → Option Bool
  | Document.Group _ b => some b
  | _ => none

/-- The children of a top-level `Group` or `Array` document. -/
def Document.topChildren : Document → List Document
  | Document.Group l _ => l
  | Document.Arr l => l
  | _ => []

/-- PHP statements: only the `Noop` / non-`Noop` distinction matters to
`print_block`; other variants are collapsed into `OtherStatement` keeping
their span and an identity tag. -/
inductive Statement where
  | Noop : Span → Statement
  | OtherStatement : Nat → Span → Statement
deriving DecidableEq, Repr

/-- `matches!(stmt, Statement::Noop(_))`. -/
def Statement.isNoop : Statement → Bool
  | Statement.Noop _ => true
  | _ => false

def Statement.span : Statement → Span
  | Statement.Noop s => s
  | Statement.OtherStatement _ s => s

/-- The `Node` kinds that `print_block` inspects on the parent stack;
every other kind of node is collapsed into `OtherNode` with an identity
tag (its payload is irrelevant to the break decision). -/
inductive NodeTag where
  | Function
  | MethodBody
  | PropertyHookConcreteBody
  | Try
  | TryCatchClause
  | TryFinallyClause
  | Statement
  | ForBody
  | WhileBody
  | DoWhile
  | If
  | IfStatementBody
  | IfStatementBodyElseClause
  | IfStatementBodyElseIfClause
  | ForeachBody
  | OtherNode : Nat → NodeTag
deriving DecidableEq, Repr

mutual

/-- PHP expressions, restricted to the variants `collect_method_call_chain`
and `base_needs_parerns` distinguish; payloads that the excerpted code never
reads are `Nat` identity tags, and `Instantiation` keeps whether its
argument list is present. -/
inductive Expression where
  | Call : Call → Expression
  | Parenthesized : Expression → Expression
  | Instantiation : Option Nat → Expression
  | Binary : Nat → Expression
  | UnaryPrefixOp : Nat → Expression
  | UnaryPostfixOp : Nat → Expression
  | Assignment : Nat → Expression
  | Conditional : Nat → Expression
  | AnonymousClass : Nat → Expression
  | Closure : Nat → Expression
  | ArrowFunction : Nat → Expression
  | Match : Nat → Expression
  | Yield : Nat → Expression
  | Clone : Nat → Expression
  | OtherExpression : Nat → Expression

/-- The `Call` enum: method and null-safe method calls keep their receiver
(`object`), a method-selector tag and an argument-list tag; the remaining
variants only keep identity tags. -/
inductive Call where
  | Method : Expression → Nat → Nat → Call
  | NullSafeMethod : Expression → Nat → Nat → Call
  | FunctionCall : Nat → Call
  | StaticMethod : Nat → Call

end

/-- `CallLikeNode`: chain collection stores whole `Call` values inside the
`Call` variant; the other variants of the enum (attributes, instantiations,
...) are collapsed into `OtherCallLike`. -/
inductive CallLikeNode where
  | Call : Call → CallLikeNode
  | OtherCallLike : Nat → CallLikeNode

/-- The result of chain collection: the residual `base` expression and the
collected method-call links. -/
structure MethodChain where
  base : Expression
  calls : List CallLikeNode

/-- `MethodChainBreakingStyle` setting. -/
inductive MethodChainBreakingStyle where
  | SameLine
  | NextLine
deriving DecidableEq, Repr

def MethodChainBreakingStyle.is_next_line : MethodChainBreakingStyle → Bool
  | MethodChainBreakingStyle.NextLine => true
  | MethodChainBreakingStyle.SameLine => false

/-- The formatter settings consulted by the excerpted functions. -/
structure Settings where
  trailing_comma : Bool
  break_promoted_properties_list : Bool
  method_chain_breaking_style : MethodChainBreakingStyle
deriving DecidableEq, Repr

/-- A function-like parameter: span, attribute lists, optional property
hooks, modifiers (payloads are identity tags) and the promoted-property
predicate, which the excerpt treats as opaque. -/
structure FunctionLikeParameter where
  span : Span
  attribute_lists : List Nat
  hooks : Option Nat
  modifiers : List Nat
  is_promoted_property : Bool
deriving DecidableEq, Repr

/-- `FunctionLikeParameterList`: parenthesis spans and ordered parameters. -/
structure FunctionLikeParameterList where
  left_parenthesis : Span
  right_parenthesis : Span
  parameters : List FunctionLikeParameter
deriving DecidableEq, Repr

/-- A generic block child for `print_block_of_nodes` (the Rust function is
generic over `T: Format + HasSpan`): a span plus an identity tag that the
formatting oracle may inspect. -/
structure BlockNode where
  span : Span
  tag : Nat
deriving DecidableEq, Repr

/-- The formatter state visible to the excerpted functions.  Methods of
`Formatter` implemented elsewhere in the repository (child formatting,
the comment index, statement sequences, call arguments) are oracle
fields: the theorems hold for every behaviour of these collaborators. -/
structure Formatter where
  settings : Settings
  /-- `f.parent_node()`. -/
  parent : NodeTag
  /-- `f.grandparent_node()`. -/
  grandparent : Option NodeTag
  /-- `f.has_comment(span, flags)` (comment index oracle). -/
  hasComment : Span → CommentFlags → Bool
  /-- `f.print_dangling_comments(span, indent)` (comment index oracle). -/
  printDanglingComments : Span → Bool → Option Document
  /-- `f.is_next_line_empty(span)` (source-text oracle). -/
  isNextLineEmpty : Span → Bool
  /-- `statement::print_statement_sequence(f, stmts)` oracle. -/
  printStatementSequence : List Statement → List Document
  /-- `item.format(f)` for generic block children. -/
  formatBlockNode : BlockNode → Document
  /-- `expr.format(f)` oracle for expressions. -/
  formatExpr : Expression → Document
  /-- `c.method.format(f)` oracle for method selectors. -/
  formatSelector : Nat → Document
  /-- `print_call_arguments(f, node)` oracle. -/
  printCallArguments : CallLikeNode → Document
  /-- `parameter.format(f)` oracle. -/
  formatParameter : FunctionLikeParameter → Document
  /-- `f.argument_state.expand_first_argument`. -/
  expand_first_argument : Bool

/-- Rust's `iter().enumerate()` starting at a given index. -/
def enumerateFrom {α : Type} : Nat → List α → List (Nat × α)
  | _, [] => []
  | n, x :: xs => (n, x) :: enumerateFrom (n + 1) xs

/-- One iteration of the body loop of `print_block_of_nodes`: push the
formatted item and, unless it is the last one (`i < length - 1` fails), a
`hardline` plus an extra `hardline` when the next source line is empty. -/
def blockNodeStep (f : Formatter) (length : Nat) (formatted : List Document)
    (p : Nat × BlockNode) : List Document :=
  let i := p.1
  let item := p.2
  let formatted := formatted ++ [f.formatBlockNode item]
  if i < length - 1 then
    let formatted := formatted ++ [Document.Line LineKind.hard]
    if f.isNextLineEmpty item.span then
      formatted ++ [Document.Line LineKind.hard]
    else
      formatted
  else
    formatted

/-- `crates/formatter/src/format/block.rs:print_block_of_nodes`.  The body
loop over `nodes.iter().enumerate()` is rendered as a left fold of
`blockNodeStep`, which pushes the same documents in the same order. -/
def print_block_of_nodes (f : Formatter) (left_brace : Span) (nodes : List BlockNode)
    (right_brace : Span) (inline_empty : Bool) : Document :=
  let length := nodes.length
  let body : Document :=
    if length = 0 then
      Document.Empty
    else
      let formatted := (enumerateFrom 0 nodes).foldl (blockNodeStep f length)
        [Document.Line LineKind.hard]
      Document.Indent formatted
  let contents := [Document.Str "\x7b", body]
  let contents :=
    match f.printDanglingComments (left_brace.join right_brace) true with
    | some comments => contents ++ [comments]
    | none =>
      if length > 0 || !inline_empty then contents ++ [Document.Line LineKind.hard]
      else contents
  let contents := contents ++ [Document.Str "\x7d"]
  Document.Group contents false

/-- `crates/formatter/src/format/block.rs:print_block`.  The `Group` is
built with `Group::new(contents).with_break(should_break)`. -/
def print_block (f : Formatter) (left_brace : Span) (stmts : List Statement)
    (right_brace : Span) : Document :=
  let has_body := stmts.any (fun stmt => !stmt.isNoop)
  let bodyAndBreak : List Document × Bool :=
    if has_body then
      ([Document.Indent (Document.Line LineKind.hard :: f.printStatementSequence stmts)], true)
    else
      ([],
        match f.parent with
        | NodeTag.Function | NodeTag.MethodBody | NodeTag.PropertyHookConcreteBody => true
        | NodeTag.Try | NodeTag.TryCatchClause | NodeTag.TryFinallyClause => true
        | NodeTag.Statement =>
          match f.grandparent with
          | some NodeTag.ForBody
          | some NodeTag.WhileBody
          | some NodeTag.DoWhile
          | some NodeTag.If
          | some NodeTag.IfStatementBody
          | some NodeTag.IfStatementBodyElseClause
          | some NodeTag.IfStatementBodyElseIfClause
          | some NodeTag.ForeachBody => true
          | _ => false
        | _ => false)
  let contents := [Document.Str "\x7b"] ++ bodyAndBreak.1
  let contents :=
    match f.printDanglingComments (left_brace.join right_brace) true with
    | some comments => contents ++ [comments]
    | none => contents ++ [Document.Line LineKind.soft]
  let contents := contents ++ [Document.Str "\x7d"]
  Document.Group contents bodyAndBreak.2

/-- The loop of `crates/formatter/src/format/call.rs:collect_method_call_chain`:
walks down `object` fields of (null-safe) method calls, pushing each visited
call onto the accumulator vector, and stops at the first non-call /
non-method-call expression, which is returned as the residual. -/
def collectLoop : Expression → List CallLikeNode → List CallLikeNode × Expression
  | Expression.Call (Call.Method obj m a), calls =>
    collectLoop obj (calls ++ [CallLikeNode.Call (Call.Method obj m a)])
  | Expression.Call (Call.NullSafeMethod obj m a), calls =>
    collectLoop obj (calls ++ [CallLikeNode.Call (Call.NullSafeMethod obj m a)])
  | e, calls => (calls, e)

/-- `crates/formatter/src/format/call.rs:collect_method_call_chain`. -/
def collect_method_call_chain (expr : Expression) : Option MethodChain :=
  let r := collectLoop expr []
  if r.1.isEmpty then
    none
  else
    some { base := r.2, calls := r.1.reverse }

/-- `crates/formatter/src/format/call.rs:base_needs_parerns` (the source
spells the name this way).  Unwraps `Parenthesized` recursively; both arms
of the `Instantiation` match return `true`. -/
def base_needs_parerns : Expression → Bool
  | Expression.Parenthesized inner => base_needs_parerns inner
  | Expression.Instantiation arguments =>
    if arguments.isNone then
      true
    else
      true
  | Expression.Binary _ => true
  | Expression.UnaryPrefixOp _ => true
  | Expression.UnaryPostfixOp _ => true
  | Expression.Assignment _ => true
  | Expression.Conditional _ => true
  | Expression.AnonymousClass _ => true
  | Expression.Closure _ => true
  | Expression.ArrowFunction _ => true
  | Expression.Match _ => true
  | Expression.Yield _ => true
  | Expression.Clone _ => true
  | _ => false

/-- One iteration of the remaining-links loop of `print_method_call_chain`:
an `Indent` holding a `hardline`, the link's operator and method, and its
grouped arguments.  The `unreachable!()` arm is modelled as `none`. -/
def chainLinkStep (f : Formatter) (parts : List Document)
    (chain_link : CallLikeNode) : Option (List Document) := do
  let opAndMethod ←
    match chain_link with
    | CallLikeNode.Call (Call.Method _ m _) =>
      some [Document.Str "->", f.formatSelector m]
    | CallLikeNode.Call (Call.NullSafeMethod _ m _) =>
      some [Document.Str "?->", f.formatSelector m]
    | _ => none
  let contents := Document.Line LineKind.hard :: opAndMethod
  let contents := contents ++ [Document.Group [f.printCallArguments chain_link] false]
  some (parts ++ [Document.Indent contents])

/-- `crates/formatter/src/format/call.rs:print_method_call_chain`.  The two
`unreachable!()` arms are modelled as `none`: a `some` result means the
function runs without hitting them. -/
def print_method_call_chain (method_chain : MethodChain) (f : Formatter) :
    Option Document := do
  let base_document := f.formatExpr method_chain.base
  let parts :=
    if base_needs_parerns method_chain.base then
      [Document.Str "(", base_document, Document.Str ")"]
    else
      [base_document]
  -- Handle the first method call when the style is not `NextLine`.
  let (parts, remaining) ←
    if !f.settings.method_chain_breaking_style.is_next_line then
      match method_chain.calls with
      | [] => some (parts, [])
      | first_chain_link :: rest =>
        match first_chain_link with
        | CallLikeNode.Call (Call.Method _ m _) =>
          some (parts ++ [Document.Str "->", f.formatSelector m,
            Document.Group [f.printCallArguments first_chain_link] false], rest)
        | CallLikeNode.Call (Call.NullSafeMethod _ m _) =>
          some (parts ++ [Document.Str "?->", f.formatSelector m,
            Document.Group [f.printCallArguments first_chain_link] false], rest)
        | _ => none
    else
      some (parts, method_chain.calls)
  -- Now handle the remaining method calls.
  let parts ← remaining.foldlM (chainLinkStep f) parts
  let parts := parts ++ [Document.BreakParent]
  some (Document.Group parts false)

/-- `crates/formatter/src/format/parameters.rs:should_hug_the_only_parameter`. -/
def should_hug_the_only_parameter (f : Formatter)
    (parameter_list : FunctionLikeParameterList) : Bool :=
  if parameter_list.parameters.length ≠ 1 then
    false
  else
    match parameter_list.parameters.head? with
    | none => false
    | some parameter =>
      -- Avoid hugging the parameter if it has a comment anywhere around it
      if f.hasComment parameter.span CommentFlags.all then
        false
      else if !parameter.attribute_lists.isEmpty || parameter.hooks.isSome then
        false
      else if !parameter.modifiers.isEmpty && f.settings.break_promoted_properties_list then
        false
      else
        true

/-- One iteration of the parameter loop of `print_function_like_parameters`:
push the formatted parameter; the `break` at `i == len - 1` skips the
separator and blank-line logic for the final parameter. -/
def parameterStep (f : Formatter) (hug : Bool) (len : Nat)
    (printed : List Document) (p : Nat × FunctionLikeParameter) : List Document :=
  let i := p.1
  let parameter := p.2
  let printed := printed ++ [f.formatParameter parameter]
  if i = len - 1 then
    printed
  else
    let printed := printed ++ [Document.Str ","]
    if hug then
      printed ++ [Document.space]
    else
      let printed := printed ++ [Document.Line LineKind.line]
      if f.isNextLineEmpty parameter.span then
        printed ++ [Document.BreakParent, Document.Line LineKind.hard]
      else
        printed

/-- The parameter loop of
`crates/formatter/src/format/parameters.rs:print_function_like_parameters`
(the `printed` vector), as a left fold of `parameterStep`. -/
def printedParameters (f : Formatter) (hug : Bool)
    (parameters : List FunctionLikeParameter) : List Document :=
  let len := parameters.length
  (enumerateFrom 0 parameters).foldl (parameterStep f hug len) []

/-- `crates/formatter/src/format/parameters.rs:print_function_like_parameters`. -/
def print_function_like_parameters (f : Formatter)
    (parameter_list : FunctionLikeParameterList) : Document :=
  let should_hug_the_parameters := should_hug_the_only_parameter f parameter_list
  let should_break := !should_hug_the_parameters
    && f.settings.break_promoted_properties_list
    && parameter_list.parameters.any (fun p => p.is_promoted_property)
  let printed := printedParameters f should_hug_the_parameters parameter_list.parameters
  if should_hug_the_parameters then
    Document.Arr ([Document.Str "("] ++ printed ++ [Document.Str ")"])
  else
    let parts := [Document.Str "("]
    let parts :=
      if !parameter_list.parameters.isEmpty then
        let parts := parts ++ [Document.Indent (Document.Line LineKind.soft :: printed)]
        if f.settings.trailing_comma then
          parts ++ [Document.IfBreak (Document.Str ",") Document.Empty]
        else
          parts
      else
        parts
    let parts :=
      match f.printDanglingComments
          (parameter_list.left_parenthesis.join parameter_list.right_parenthesis) true with
      | some comments => parts ++ [comments]
      | none => parts ++ [Document.Line LineKind.soft]
    let parts := parts ++ [Document.Str ")"]
    if f.expand_first_argument then
      Document.Arr parts
    else
      Document.Group parts should_break

/-- A filesystem path, as its list of components (`std::path::Path`);
`starts_with` is component-wise prefix testing. -/
def MPath : Type := List String

/-- `Path::starts_with(base)`: `base`'s components are a prefix of the
path's components. -/
def pathStartsWith : MPath → MPath → Bool
  | _, [] => true
  | [], _ :: _ => false
  | x :: xs, y :: ys => x == y && pathStartsWith xs ys

/-- `path.to_string_lossy()` for a component-list path. -/
def pathDisplay (p : MPath) : String :=
  String.intercalate "/" p

/-- `src/source.rs:Exclusion`. -/
inductive Exclusion where
  | Path : MPath → Exclusion
  | Pattern : String → Exclusion

/-- `src/source.rs:is_excluded`.  The `HashSet` is modelled as the list of
its elements in iteration order; `glob` is the external
`glob_match::glob_match` oracle.  Each iteration returns `true` when the
exclusion's guard matches and falls through to the next exclusion
(`_ => continue`) otherwise. -/
def is_excluded (glob : String → String → Bool) (path : MPath) :
    List Exclusion → Bool
  | [] => false
  | exclusion :: rest =>
    match exclusion with
    | Exclusion.Path p =>
      if pathStartsWith path p then true else is_excluded glob path rest
    | Exclusion.Pattern p =>
      if glob p (pathDisplay path) then true else is_excluded glob path rest

/-! ### Specification-side descriptions

The following definitions follow the spec's words; the theorems compare
the source-derived functions above against them. -/

/-- Spec description of chain collection: the calls visited while walking
down `object` fields, in walk (accumulation) order, together with the
residual expression at the bottom. -/
def walkSpec : Expression → List CallLikeNode × Expression
  | Expression.Call (Call.Method obj m a) =>
    let r := walkSpec obj
    (CallLikeNode.Call (Call.Method obj m a) :: r.1, r.2)
  | Expression.Call (Call.NullSafeMethod obj m a) =>
    let r := walkSpec obj
    (CallLikeNode.Call (Call.NullSafeMethod obj m a) :: r.1, r.2)
  | e => ([], e)

/-- Spec description of the block body: children joined by a `hardline`,
with one extra `hardline` after a child exactly when the source has a blank
line after that child's span; nothing follows the last child. -/
def joinBlockNodes (f : Formatter) : List BlockNode → List Document
  | [] => []
  | [x] => [f.formatBlockNode x]
  | x :: y :: rest =>
    ([f.formatBlockNode x, Document.Line LineKind.hard] ++
      (if f.isNextLineEmpty x.span then [Document.Line LineKind.hard] else [])) ++
    joinBlockNodes f (y :: rest)

/-- Spec description of the printed parameter list: a comma and a
space (hugging) or default line plus optional blank-line marker follow a
parameter exactly when it has a successor; the final parameter is followed
by nothing, and its span is never consulted. -/
def joinParameters (f : Formatter) (hug : Bool) :
    List FunctionLikeParameter → List Document
  | [] => []
  | [x] => [f.formatParameter x]
  | x :: y :: rest =>
    ([f.formatParameter x, Document.Str ","] ++
      (if hug then [Document.space]
       else [Document.Line LineKind.line] ++
         (if f.isNextLineEmpty x.span then
            [Document.BreakParent, Document.Line LineKind.hard]
          else []))) ++
    joinParameters f hug (y :: rest)

/-- A chain link that is a (null-safe) method call. -/
def isMethodLink : CallLikeNode → Bool
  | CallLikeNode.Call (Call.Method _ _ _) => true
  | CallLikeNode.Call (Call.NullSafeMethod _ _ _) => true
  | _ => false

/-- Every link of the chain is a (null-safe) method call — the invariant
chain collection establishes. -/
def chainWellFormed (calls : List CallLikeNode) : Bool :=
  calls.all isMethodLink

/-- The operator of a chain link: `->` for `Method`, `?->` for
`NullSafeMethod` (other links never reach rendering). -/
def linkOperatorDoc : CallLikeNode → Document
  | CallLikeNode.Call (Call.Method _ _ _) => Document.Str "->"
  | CallLikeNode.Call (Call.NullSafeMethod _ _ _) => Document.Str "?->"
  | _ => Document.Empty

/-- The formatted method selector of a chain link. -/
def linkSelectorDoc (f : Formatter) : CallLikeNode → Document
  | CallLikeNode.Call (Call.Method _ m _) => f.formatSelector m
  | CallLikeNode.Call (Call.NullSafeMethod _ m _) => f.formatSelector m
  | _ => Document.Empty

/-- A chain link rendered adjacent to what precedes it: operator, method,
grouped arguments — no line break. -/
def linkInlineDocs (f : Formatter) (link : CallLikeNode) : List Document :=
  [linkOperatorDoc link, linkSelectorDoc f link,
    Document.Group [f.printCallArguments link] false]

/-- A chain link rendered on its own line: an `Indent` whose contents begin
with a `hardline`. -/
def linkIndentDoc (f : Formatter) (link : CallLikeNode) : Document :=
  Document.Indent (Document.Line LineKind.hard :: linkInlineDocs f link)

/-- The formatted base of a chain, wrapped in literal parentheses exactly
when `base_needs_parerns` holds. -/
def baseDocs (f : Formatter) (base : Expression) : List Document :=
  if base_needs_parerns base then
    [Document.Str "(", f.formatExpr base, Document.Str ")"]
  else
    [f.formatExpr base]

/-- Everything a rendered chain emits after the base: the first link inline
unless the breaking style is `NextLine`, the remaining links indented on
their own lines, and the closing `BreakParent`. -/
def chainTailDocs (f : Formatter) (mc : MethodChain) : List Document :=
  (if f.settings.method_chain_breaking_style.is_next_line then
    mc.calls.map (linkIndentDoc f)
  else
    match mc.calls with
    | [] => []
    | c :: rest => linkInlineDocs f c ++ rest.map (linkIndentDoc f)) ++
  [Document.BreakParent]

/-- Spec description of one exclusion matching a path: a `Path` exclusion
that is a component prefix of the path, or a `Pattern` exclusion whose glob
matches the displayed path. -/
def exclusionMatches (glob : String → String → Bool) (path : MPath) :
    Exclusion → Bool
  | Exclusion.Path p => pathStartsWith path p
  | Exclusion.Pattern p => glob p (pathDisplay path)

/-! ### Concrete fixtures for witnesses -/

/-- Replace only the blank-line oracle of a formatter. -/
def withNextLineEmpty (f : Formatter) (g : Span → Bool) : Formatter :=
  ⟨f.settings, f.parent, f.grandparent, f.hasComment, f.printDanglingComments, g,
    f.printStatementSequence, f.formatBlockNode, f.formatExpr, f.formatSelector,
    f.printCallArguments, f.formatParameter, f.expand_first_argument⟩

/-- A concrete formatter (same-line chain style, trailing commas on). -/
def testFormatter : Formatter :=
  ⟨⟨true, true, MethodChainBreakingStyle.SameLine⟩, NodeTag.Function, none,
    fun _ _ => false, fun _ _ => none, fun _ => false, fun _ => [],
    fun _ => Document.Empty, fun _ => Document.Empty, fun _ => Document.Empty,
    fun _ => Document.Empty, fun _ => Document.Empty, false⟩

/-- A concrete formatter with next-line chain style. -/
def testFormatterNextLine : Formatter :=
  ⟨⟨true, true, MethodChainBreakingStyle.NextLine⟩, NodeTag.Function, none,
    fun _ _ => false, fun _ _ => none, fun _ => false, fun _ => [],
    fun _ => Document.Empty, fun _ => Document.Empty, fun _ => Document.Empty,
    fun _ => Document.Empty, fun _ => Document.Empty, false⟩

/-- A concrete two-link method chain over the base `$x`:
`$x->a()?->b()` read innermost-first. -/
def testChain : MethodChain :=
  ⟨Expression.OtherExpression 0,
    [CallLikeNode.Call (Call.Method (Expression.OtherExpression 0) 1 1),
     CallLikeNode.Call (Call.NullSafeMethod
       (Expression.Call (Call.Method (Expression.OtherExpression 0) 1 1)) 2 2)]⟩

/-- The expression `$x->a()?->b()` whose collection yields `testChain`. -/
def testChainExpr : Expression :=
  Expression.Call (Call.NullSafeMethod
    (Expression.Call (Call.Method (Expression.OtherExpression 0) 1 1)) 2 2)

/-- A concrete two-parameter list. -/
def testParameterList : FunctionLikeParameterList :=
  ⟨⟨0, 1⟩, ⟨10, 11⟩,
    [⟨⟨1, 4⟩, [], none, [], false⟩, ⟨⟨5, 9⟩, [], none, [], false⟩]⟩

/-- A concrete single-parameter list (huggable). -/
def testSingleParameterList : FunctionLikeParameterList :=
  ⟨⟨0, 1⟩, ⟨10, 11⟩, [⟨⟨1, 4⟩, [], none, [], false⟩]⟩

/-- A blank-line oracle that reports a blank line only after the span of
the final parameter of `testParameterList`. -/
def testBlankAfterLast : Span → Bool :=
  fun sp => decide (sp = ⟨5, 9⟩)

/-- A glob oracle that matches nothing. -/
def neverGlob : String → String → Bool :=
  fun _ _ => false

/-- A concrete exclusion list whose first element does not match the path
`a/b` and whose second does. -/
def testExclusions : List Exclusion :=
  [Exclusion.Pattern "x", Exclusion.Path ["a"]]

/-! ### Helper lemmas -/

/-- The collection loop appends exactly the walked calls to its accumulator
and returns the walk's residual. -/
theorem collectLoop_eq (e : Expression) (acc : List CallLikeNode) :
    collectLoop e acc = (acc ++ (walkSpec e).1, (walkSpec e).2) := by
  induction e, acc using collectLoop.induct with
  | case1 obj m a calls ih =>
    simp only [collectLoop, walkSpec, ih, List.append_assoc, List.singleton_append]
  | case2 obj m a calls ih =>
    simp only [collectLoop, walkSpec, ih, List.append_assoc, List.singleton_append]
  | case3 e calls h1 h2 =>
    rw [collectLoop.eq_def, walkSpec.eq_def]
    cases e with
    | Call c =>
      cases c with
      | Method obj m a => exact absurd rfl (h1 obj m a)
      | NullSafeMethod obj m a => exact absurd rfl (h2 obj m a)
      | FunctionCall n => simp
      | StaticMethod n => simp
    | Parenthesized inner => simp
    | Instantiation args => simp
    | Binary n => simp
    | UnaryPrefixOp n => simp
    | UnaryPostfixOp n => simp
    | Assignment n => simp
    | Conditional n => simp
    | AnonymousClass n => simp
    | Closure n => simp
    | ArrowFunction n => simp
    | Match n => simp
    | Yield n => simp
    | Clone n => simp
    | OtherExpression n => simp

/-- Every call the walk collects is a (null-safe) method call. -/
theorem walkSpec_wf (e : Expression) : ((walkSpec e).1).all isMethodLink = true := by
  induction e using walkSpec.induct with
  | case1 obj m a ih => simp only [walkSpec, List.all_cons, isMethodLink, ih,
      Bool.and_self]
  | case2 obj m a ih => simp only [walkSpec, List.all_cons, isMethodLink, ih,
      Bool.and_self]
  | case3 e h1 h2 =>
    rw [walkSpec.eq_def]
    cases e with
    | Call c =>
      cases c with
      | Method obj m a => exact absurd rfl (h1 obj m a)
      | NullSafeMethod obj m a => exact absurd rfl (h2 obj m a)
      | FunctionCall n => simp
      | StaticMethod n => simp
    | Parenthesized inner => simp
    | Instantiation args => simp
    | Binary n => simp
    | UnaryPrefixOp n => simp
    | UnaryPostfixOp n => simp
    | Assignment n => simp
    | Conditional n => simp
    | AnonymousClass n => simp
    | Closure n => simp
    | ArrowFunction n => simp
    | Match n => simp
    | Yield n => simp
    | Clone n => simp
    | OtherExpression n => simp

/-- The block-body fold appends exactly the spec-side join of the nodes,
as long as the numbering is consistent (`i + l.length = n`, so `i < n - 1`
holds exactly for nodes that have a successor). -/
theorem blockFold_eq (f : Formatter) (n : Nat) (l : List BlockNode) :
    ∀ (i : Nat) (acc : List Document), i + l.length = n →
      (enumerateFrom i l).foldl (blockNodeStep f n) acc = acc ++ joinBlockNodes f l := by
  induction l with
  | nil => intro i acc h; simp [enumerateFrom, joinBlockNodes]
  | cons x xs ih =>
    intro i acc h
    rw [enumerateFrom, List.foldl_cons]
    cases xs with
    | nil =>
      have hi : ¬(i < n - 1) := by
        simp only [List.length_cons, List.length_nil] at h
        omega
      simp [enumerateFrom, joinBlockNodes, blockNodeStep, hi]
    | cons y rest =>
      have hlen : i + 1 + (y :: rest).length = n := by
        simp only [List.length_cons] at h ⊢
        omega
      have hi : i < n - 1 := by
        simp only [List.length_cons] at h
        omega
      rw [ih (i + 1) _ hlen]
      show blockNodeStep f n acc (i, x) ++ _ = _
      cases hne : f.isNextLineEmpty x.span <;>
        simp [blockNodeStep, hi, hne, joinBlockNodes]

/-- The parameter fold appends exactly the spec-side join of the
parameters (`i = n - 1` holds exactly for the final parameter). -/
theorem parameterFold_eq (f : Formatter) (hug : Bool) (n : Nat)
    (l : List FunctionLikeParameter) (hn : 0 < n) :
    ∀ (i : Nat) (acc : List Document), i + l.length = n →
      (enumerateFrom i l).foldl (parameterStep f hug n) acc =
        acc ++ joinParameters f hug l := by
  induction l with
  | nil => intro i acc h; simp [enumerateFrom, joinParameters]
  | cons x xs ih =>
    intro i acc h
    rw [enumerateFrom, List.foldl_cons]
    cases xs with
    | nil =>
      have hi : i = n - 1 := by
        simp only [List.length_cons, List.length_nil] at h
        omega
      simp [enumerateFrom, joinParameters, parameterStep, hi]
    | cons y rest =>
      have hlen : i + 1 + (y :: rest).length = n := by
        simp only [List.length_cons] at h ⊢
        omega
      have hi : ¬(i = n - 1) := by
        simp only [List.length_cons] at h
        omega
      rw [ih (i + 1) _ hlen]
      show parameterStep f hug n acc (i, x) ++ _ = _
      cases hhug : hug
      · cases hne : f.isNextLineEmpty x.span <;>
          simp [parameterStep, hi, hne, joinParameters]
      · simp [parameterStep, hi, joinParameters]

/-- Folding `chainLinkStep` over method-call links never hits the
`unreachable!()` arm and appends one indented link document per link. -/
theorem chainFoldlM_eq (f : Formatter) (l : List CallLikeNode) :
    ∀ parts : List Document, l.all isMethodLink = true →
      l.foldlM (chainLinkStep f) parts = some (parts ++ l.map (linkIndentDoc f)) := by
  induction l with
  | nil => intro parts _; simp
  | cons x xs ih =>
    intro parts h
    simp only [List.all_cons, Bool.and_eq_true] at h
    cases x with
    | OtherCallLike n => simp [isMethodLink] at h
    | Call c =>
      cases c with
      | Method o m a =>
        rw [List.foldlM_cons]
        have hstep : chainLinkStep f parts (CallLikeNode.Call (Call.Method o m a)) =
            some (parts ++ [linkIndentDoc f (CallLikeNode.Call (Call.Method o m a))]) := rfl
        rw [hstep]
        show xs.foldlM (chainLinkStep f) _ = _
        rw [ih _ h.2]
        simp
      | NullSafeMethod o m a =>
        rw [List.foldlM_cons]
        have hstep : chainLinkStep f parts (CallLikeNode.Call (Call.NullSafeMethod o m a)) =
            some (parts ++ [linkIndentDoc f (CallLikeNode.Call (Call.NullSafeMethod o m a))]) := rfl
        rw [hstep]
        show xs.foldlM (chainLinkStep f) _ = _
        rw [ih _ h.2]
        simp
      | FunctionCall n => simp [isMethodLink] at h
      | StaticMethod n => simp [isMethodLink] at h

/-- The rendering equation for well-formed chains: base (parenthesised when
needed), then the links — the first one inline unless the breaking style is
`NextLine`, the rest indented on their own lines — then a `BreakParent`,
wrapped in a `Group`. -/
theorem print_chain_eq (f : Formatter) (mc : MethodChain)
    (h : chainWellFormed mc.calls = true) :
    print_method_call_chain mc f = some (Document.Group
      (baseDocs f mc.base ++
        (if f.settings.method_chain_breaking_style.is_next_line then
          mc.calls.map (linkIndentDoc f)
        else
          match mc.calls with
          | [] => []
          | c :: rest => linkInlineDocs f c ++ rest.map (linkIndentDoc f)) ++
        [Document.BreakParent]) false) := by
  obtain ⟨base, calls⟩ := mc
  unfold chainWellFormed at h
  unfold print_method_call_chain
  cases hstyle : f.settings.method_chain_breaking_style.is_next_line with
  | true =>
    simp only [Bool.not_true, Bool.false_eq_true, ite_false, if_false, ite_true, if_true,
      Option.bind_eq_bind', Option.some_bind]
    rw [chainFoldlM_eq f calls _ h]
    simp [baseDocs]
  | false =>
    cases calls with
    | nil =>
      simp only [Bool.not_false, ite_true, if_true, Option.bind_eq_bind',
        Option.some_bind, List.foldlM_nil]
      simp [baseDocs]
    | cons c rest =>
      simp only [List.all_cons, Bool.and_eq_true] at h
      cases c with
      | OtherCallLike n => simp [isMethodLink] at h
      | Call cc =>
        cases cc with
        | Method o m a =>
          simp only [Bool.not_false, ite_true, if_true, Option.bind_eq_bind',
            Option.some_bind]
          rw [chainFoldlM_eq f rest _ h.2]
          simp [baseDocs, linkInlineDocs, linkOperatorDoc, linkSelectorDoc]
        | NullSafeMethod o m a =>
          simp only [Bool.not_false, ite_true, if_true, Option.bind_eq_bind',
            Option.some_bind]
          rw [chainFoldlM_eq f rest _ h.2]
          simp [baseDocs, linkInlineDocs, linkOperatorDoc, linkSelectorDoc]
        | FunctionCall n => simp [isMethodLink] at h
        | StaticMethod n => simp [isMethodLink] at h

/-- The spec-side parameter join only consults the blank-line oracle on
parameters that have a successor: replacing the oracle by any function
that agrees on the initial parameters leaves the join unchanged. -/
theorem joinParameters_congr (f : Formatter) (g : Span → Bool) (hug : Bool) :
    ∀ (ps : List FunctionLikeParameter) (p : FunctionLikeParameter),
      (∀ q ∈ ps, g q.span = f.isNextLineEmpty q.span) →
      joinParameters (withNextLineEmpty f g) hug (ps ++ [p]) =
        joinParameters f hug (ps ++ [p]) := by
  intro ps
  induction ps with
  | nil => intro p _; rfl
  | cons x xs ih =>
    intro p hq
    have hx : g x.span = f.isNextLineEmpty x.span := hq x (by simp)
    have ihr := ih p (fun q hq2 => hq q (by simp [hq2]))
    cases hxp : xs ++ [p] with
    | nil => exact absurd hxp (by simp)
    | cons y rest =>
      rw [hxp] at ihr
      rw [List.cons_append, hxp]
      simp only [joinParameters]
      rw [ihr]
      simp [withNextLineEmpty, hx]

/-! ### Theorems for the claims -/

/-- C2: `collect_method_call_chain` walks down the `object` field while the
expression is a (null-safe) method call, accumulating the visited calls; it
returns `none` exactly when the accumulation is empty, and otherwise a chain
whose `calls` vector is the reverse of the accumulation order (so element 0
is the link rendered first, nearest the base) and whose `base` is the
residual non-method-call node at the bottom of the walk. -/
theorem collect_method_call_chain_correct (expr : Expression) :
    collect_method_call_chain expr =
      if ((walkSpec expr).1).isEmpty then none
      else some ⟨(walkSpec expr).2, ((walkSpec expr).1).reverse⟩ := by
  unfold collect_method_call_chain
  rw [collectLoop_eq]
  simp

/-- C8: `is_excluded` implements any-match semantics — it returns `true`
iff at least one exclusion in the set matches the path, either a `Path`
exclusion that is a prefix of the path or a `Pattern` exclusion whose glob
matches; the `continue` arm keeps scanning past non-matching exclusions. -/
theorem is_excluded_any_match (glob : String → String → Bool) (path : MPath)
    (excludes : List Exclusion) :
    is_excluded glob path excludes = excludes.any (exclusionMatches glob path) := by
  induction excludes with
  | nil => rfl
  | cons e rest ih =>
    cases e with
    | Path p =>
      simp only [is_excluded, List.any_cons, exclusionMatches, ih]
      cases hb : pathStartsWith path p <;> simp [hb]
    | Pattern p =>
      simp only [is_excluded, List.any_cons, exclusionMatches, ih]
      cases hb : glob p (pathDisplay path) <;> simp [hb]

/-- C10: the printed parameter list equals the spec-side join, in which the
comma, the space-or-line separator and the blank-line check follow a
parameter only when it has a successor (`joinParameters` never consults the
final parameter); consequently the output is unchanged under any
modification of the blank-line oracle that agrees on the non-final
parameters — a blank line after the final parameter never forces a break. -/
theorem printed_parameters_no_trailing_separator (f : Formatter) (hug : Bool) :
    (∀ parameters, printedParameters f hug parameters =
      joinParameters f hug parameters) ∧
    (∀ (g : Span → Bool) (p : FunctionLikeParameter)
        (ps : List FunctionLikeParameter),
      (∀ q ∈ ps, g q.span = f.isNextLineEmpty q.span) →
      printedParameters (withNextLineEmpty f g) hug (ps ++ [p]) =
        printedParameters f hug (ps ++ [p])) := by
  have hmain : ∀ (f : Formatter) (parameters : List FunctionLikeParameter),
      printedParameters f hug parameters = joinParameters f hug parameters := by
    intro f parameters
    cases parameters with
    | nil => rfl
    | cons x xs =>
      unfold printedParameters
      rw [parameterFold_eq f hug (x :: xs).length (x :: xs) (by simp) 0 [] (by simp)]
      simp
  refine ⟨hmain f, ?_⟩
  intro g p ps hq
  rw [hmain (withNextLineEmpty f g), hmain f]
  exact joinParameters_congr f g hug ps p hq

/-- C1: the `should_break` flag computed by `print_block` — the flag the
returned `Group` carries — is `true` iff some statement is not a `Noop`, or
else the parent node is one of `Function`, `MethodBody`,
`PropertyHookConcreteBody`, `Try`, `TryCatchClause`, `TryFinallyClause`, or
the parent is `Statement` and the grandparent one of `ForBody`, `WhileBody`,
`DoWhile`, `If`, `IfStatementBody`, `IfStatementBodyElseClause`,
`IfStatementBodyElseIfClause`, `ForeachBody`; in every other case the
`Group` carries `break = false`. -/
theorem print_block_break_iff (f : Formatter) (lb : Span) (stmts : List Statement)
    (rb : Span) :
    (Document.groupBreakFlag (print_block f lb stmts rb)).isSome = true ∧
    (Document.groupBreakFlag (print_block f lb stmts rb) = some true ↔
      ((∃ s ∈ stmts, s.isNoop = false) ∨
       f.parent ∈ [NodeTag.Function, NodeTag.MethodBody, NodeTag.PropertyHookConcreteBody,
         NodeTag.Try, NodeTag.TryCatchClause, NodeTag.TryFinallyClause] ∨
       (f.parent = NodeTag.Statement ∧ ∃ g, f.grandparent = some g ∧
         g ∈ [NodeTag.ForBody, NodeTag.WhileBody, NodeTag.DoWhile, NodeTag.If,
           NodeTag.IfStatementBody, NodeTag.IfStatementBodyElseClause,
           NodeTag.IfStatementBodyElseIfClause, NodeTag.ForeachBody]))) := by
  constructor
  · rfl
  · simp only [print_block, Document.groupBreakFlag]
    rw [apply_ite Prod.snd]
    cases hb : stmts.any (fun stmt => !stmt.isNoop) with
    | true =>
      simp only [List.any_eq_true, Bool.not_eq_true'] at hb
      simp [hb]
    | false =>
      simp only [List.any_eq_false, Bool.not_eq_true'] at hb
      have hnone : ¬(∃ s ∈ stmts, s.isNoop = false) := by
        rintro ⟨s, hs, hns⟩
        exact absurd (hb s hs) (by simp [hns])
      cases hp : f.parent <;>
        simp only [Bool.false_eq_true, if_false, ite_false] <;>
        try simp [hnone]
      cases hg : f.grandparent with
      | none => simp [hnone]
      | some g => cases g <;> simp [hnone]

/-- C3: `should_hug_the_only_parameter` is `true` iff the list has exactly
one parameter, that parameter has no comment attached under any
`CommentFlags`, no attribute lists, no property hooks, and it is not the
case that it has modifiers while `break_promoted_properties_list` is set. -/
theorem should_hug_the_only_parameter_iff (f : Formatter)
    (parameter_list : FunctionLikeParameterList) :
    should_hug_the_only_parameter f parameter_list = true ↔
      ∃ p, parameter_list.parameters = [p] ∧
        f.hasComment p.span CommentFlags.all = false ∧
        p.attribute_lists = [] ∧
        p.hooks = none ∧
        ¬(p.modifiers ≠ [] ∧ f.settings.break_promoted_properties_list = true) := by
  unfold should_hug_the_only_parameter
  cases hps : parameter_list.parameters with
  | nil => simp
  | cons p rest =>
    cases rest with
    | nil =>
      cases hc : f.hasComment p.span CommentFlags.all <;>
      cases ha : p.attribute_lists <;>
      cases hh : p.hooks <;>
      cases hm : p.modifiers <;>
      cases hbp : f.settings.break_promoted_properties_list <;>
        simp_all
    | cons q rest2 => simp

/-- C7: `print_block_of_nodes` produces a `Group` holding `"{"`, then — for
a non-empty sequence — an `Indent` beginning with a `hardline` whose
children are joined by a `hardline` with one extra `hardline` after a child
exactly when `is_next_line_empty` holds of its span; dangling comments of
the joined brace span replace the closing `hardline`, which is otherwise
emitted before `"}"` iff the sequence is non-empty or `inline_empty` is
false. -/
theorem print_block_of_nodes_spec (f : Formatter) (lb : Span) (nodes : List BlockNode)
    (rb : Span) (inline_empty : Bool) :
    print_block_of_nodes f lb nodes rb inline_empty =
      Document.Group
        ([Document.Str "\x7b",
          if nodes.isEmpty then Document.Empty
          else Document.Indent (Document.Line LineKind.hard :: joinBlockNodes f nodes)] ++
         (match f.printDanglingComments (lb.join rb) true with
          | some comments => [comments]
          | none =>
            if nodes.length > 0 || !inline_empty then [Document.Line LineKind.hard]
            else []) ++
         [Document.Str "\x7d"]) false := by
  unfold print_block_of_nodes
  cases nodes with
  | nil =>
    cases hdc : f.printDanglingComments (lb.join rb) true <;>
      cases inline_empty <;> simp [hdc]
  | cons x xs =>
    dsimp only
    rw [blockFold_eq f (x :: xs).length (x :: xs) 0 [Document.Line LineKind.hard]
      (by simp)]
    cases hdc : f.printDanglingComments (lb.join rb) true <;> simp [hdc]

/-- C4: in `print_function_like_parameters`, with `trailing_comma` on and
no hugging, the `IfBreak(",")` document is appended after the indented
parameter list iff the parameter list is non-empty (the dangling-comment
oracle is assumed not to produce that exact document itself); in
particular an empty list never yields a trailing comma. -/
theorem print_function_like_parameters_trailing_comma_iff (f : Formatter)
    (pl : FunctionLikeParameterList)
    (ht : f.settings.trailing_comma = true)
    (hh : should_hug_the_only_parameter f pl = false)
    (hd : ∀ c, f.printDanglingComments
        (pl.left_parenthesis.join pl.right_parenthesis) true = some c →
        c ≠ Document.IfBreak (Document.Str ",") Document.Empty) :
    Document.IfBreak (Document.Str ",") Document.Empty ∈
        (print_function_like_parameters f pl).topChildren ↔
      pl.parameters ≠ [] := by
  unfold print_function_like_parameters
  rw [hh]
  dsimp only
  simp only [Bool.false_eq_true, if_false, ite_false, ht, if_true, ite_true]
  cases hps : pl.parameters with
  | nil =>
    cases hdc : f.printDanglingComments
        (pl.left_parenthesis.join pl.right_parenthesis) true with
    | none =>
      cases he : f.expand_first_argument <;>
        simp [Document.topChildren, hdc, he]
    | some c =>
      have hne := Ne.symm (hd c hdc)
      cases he : f.expand_first_argument <;>
        simp [Document.topChildren, hdc, he, hne]
  | cons p rest =>
    cases hdc : f.printDanglingComments
        (pl.left_parenthesis.join pl.right_parenthesis) true with
    | none =>
      cases he : f.expand_first_argument <;>
        simp [Document.topChildren, hdc, he]
    | some c =>
      cases he : f.expand_first_argument <;>
        simp [Document.topChildren, hdc, he]

/-- Witness for C4: for the concrete two-parameter list the trailing-comma
`IfBreak` document is present among the top-level children. -/
theorem print_function_like_parameters_trailing_comma_iff_witness :
    Document.IfBreak (Document.Str ",") Document.Empty ∈
      (print_function_like_parameters testFormatter testParameterList).topChildren :=
  (print_function_like_parameters_trailing_comma_iff testFormatter testParameterList
    rfl rfl (fun c hc => nomatch hc)).mpr (by decide)

/-- C5: `base_needs_parerns` defers to the inner expression for
`Parenthesized`, holds for every `Instantiation` with or without arguments,
holds for `Binary`, `UnaryPrefix`, `UnaryPostfix`, `Assignment`,
`Conditional`, `AnonymousClass`, `Closure`, `ArrowFunction`, `Match`,
`Yield` and `Clone`, and fails for every other variant; and
`print_method_call_chain` wraps the formatted base in literal `"("`, `")"`
exactly when the predicate holds of the base. -/
theorem base_needs_parerns_spec :
    (∀ inner, base_needs_parerns (Expression.Parenthesized inner) =
      base_needs_parerns inner) ∧
    (∀ args, base_needs_parerns (Expression.Instantiation args) = true) ∧
    (∀ n, base_needs_parerns (Expression.Binary n) = true) ∧
    (∀ n, base_needs_parerns (Expression.UnaryPrefixOp n) = true) ∧
    (∀ n, base_needs_parerns (Expression.UnaryPostfixOp n) = true) ∧
    (∀ n, base_needs_parerns (Expression.Assignment n) = true) ∧
    (∀ n, base_needs_parerns (Expression.Conditional n) = true) ∧
    (∀ n, base_needs_parerns (Expression.AnonymousClass n) = true) ∧
    (∀ n, base_needs_parerns (Expression.Closure n) = true) ∧
    (∀ n, base_needs_parerns (Expression.ArrowFunction n) = true) ∧
    (∀ n, base_needs_parerns (Expression.Match n) = true) ∧
    (∀ n, base_needs_parerns (Expression.Yield n) = true) ∧
    (∀ n, base_needs_parerns (Expression.Clone n) = true) ∧
    (∀ c, base_needs_parerns (Expression.Call c) = false) ∧
    (∀ n, base_needs_parerns (Expression.OtherExpression n) = false) ∧
    (∀ (f : Formatter) (mc : MethodChain), chainWellFormed mc.calls = true →
      print_method_call_chain mc f = some (Document.Group
        ((if base_needs_parerns mc.base then
            [Document.Str "(", f.formatExpr mc.base, Document.Str ")"]
          else
            [f.formatExpr mc.base]) ++ chainTailDocs f mc) false)) := by
  refine ⟨fun _ => rfl, fun args => by cases args <;> rfl, fun _ => rfl, fun _ => rfl,
    fun _ => rfl, fun _ => rfl, fun _ => rfl, fun _ => rfl, fun _ => rfl, fun _ => rfl,
    fun _ => rfl, fun _ => rfl, fun _ => rfl, fun _ => rfl, fun _ => rfl, ?_⟩
  intro f mc h
  rw [print_chain_eq f mc h]
  simp [baseDocs, chainTailDocs, List.append_assoc]

/-- Witness for C5: the wrap equation instantiated at the concrete chain
(whose base is not parenthesised, since it is an `OtherExpression`). -/
theorem base_needs_parerns_spec_witness :
    print_method_call_chain testChain testFormatter = some (Document.Group
      ((if base_needs_parerns testChain.base then
          [Document.Str "(", testFormatter.formatExpr testChain.base, Document.Str ")"]
        else
          [testFormatter.formatExpr testChain.base]) ++
        chainTailDocs testFormatter testChain) false) :=
  base_needs_parerns_spec.2.2.2.2.2.2.2.2.2.2.2.2.2.2.2 testFormatter testChain rfl

/-- C6: for a well-formed chain, `print_method_call_chain` renders the base
followed — in `SameLine` style (`is_next_line` false) — by the first link
inline (operator, method, grouped arguments, no preceding line break) and
every later link as an `Indent` beginning with a `hardline`; in `NextLine`
style every link, including the first, is such an indented link; the
operator is `->` for `Method` and `?->` for `NullSafeMethod`; and a
`BreakParent` is appended before the whole list is wrapped in a `Group`,
so the enclosing group always breaks. -/
theorem print_method_call_chain_layout (f : Formatter) (mc : MethodChain)
    (h : chainWellFormed mc.calls = true) :
    print_method_call_chain mc f = some (Document.Group
      (baseDocs f mc.base ++
        (if f.settings.method_chain_breaking_style.is_next_line then
          mc.calls.map (linkIndentDoc f)
        else
          match mc.calls with
          | [] => []
          | c :: rest => linkInlineDocs f c ++ rest.map (linkIndentDoc f)) ++
        [Document.BreakParent]) false) ∧
    (∀ o m a, linkOperatorDoc (CallLikeNode.Call (Call.Method o m a)) =
      Document.Str "->") ∧
    (∀ o m a, linkOperatorDoc (CallLikeNode.Call (Call.NullSafeMethod o m a)) =
      Document.Str "?->") :=
  ⟨print_chain_eq f mc h, fun _ _ _ => rfl, fun _ _ _ => rfl⟩

/-- Witness for C6: the two-link chain fully rendered in both styles —
first link inline in `SameLine` style, all links indented in `NextLine`
style. -/
theorem print_method_call_chain_layout_witness :
    print_method_call_chain testChain testFormatter =
      some (Document.Group
        [Document.Empty,
         Document.Str "->", Document.Empty,
         Document.Group [Document.Empty] false,
         Document.Indent [Document.Line LineKind.hard, Document.Str "?->",
           Document.Empty, Document.Group [Document.Empty] false],
         Document.BreakParent] false) ∧
    print_method_call_chain testChain testFormatterNextLine =
      some (Document.Group
        [Document.Empty,
         Document.Indent [Document.Line LineKind.hard, Document.Str "->",
           Document.Empty, Document.Group [Document.Empty] false],
         Document.Indent [Document.Line LineKind.hard, Document.Str "?->",
           Document.Empty, Document.Group [Document.Empty] false],
         Document.BreakParent] false) :=
  ⟨by rw [(print_method_call_chain_layout testFormatter testChain rfl).1]; rfl,
   by rw [(print_method_call_chain_layout testFormatterNextLine testChain rfl).1]; rfl⟩

/-- C9: every chain produced by `collect_method_call_chain` consists solely
of `Method` / `NullSafeMethod` links, so `print_method_call_chain` never
reaches its `unreachable!()` arms (modelled as `none`) on such a chain. -/
theorem collected_chain_links_are_method_calls (e : Expression) (mc : MethodChain)
    (f : Formatter) (h : collect_method_call_chain e = some mc) :
    chainWellFormed mc.calls = true ∧
    (print_method_call_chain mc f).isSome = true := by
  have hcalls : mc.calls = ((walkSpec e).1).reverse := by
    unfold collect_method_call_chain at h
    rw [collectLoop_eq] at h
    simp only [List.nil_append] at h
    cases hie : ((walkSpec e).1).isEmpty with
    | true => rw [hie] at h; simp at h
    | false =>
      rw [hie] at h
      simp only [Bool.false_eq_true, if_false, ite_false, Option.some.injEq] at h
      rw [← h]
  have hwf : chainWellFormed mc.calls = true := by
    rw [hcalls]
    unfold chainWellFormed
    rw [List.all_reverse]
    exact walkSpec_wf e
  refine ⟨hwf, ?_⟩
  rw [print_chain_eq f mc hwf]
  rfl

/-- Witness for C9: the concrete expression collects into `testChain` and
rendering it succeeds. -/
theorem collected_chain_links_are_method_calls_witness :
    collect_method_call_chain testChainExpr = some testChain ∧
    chainWellFormed testChain.calls = true ∧
    (print_method_call_chain testChain testFormatter).isSome = true :=
  ⟨rfl, collected_chain_links_are_method_calls testChainExpr testChain testFormatter rfl⟩

/-- Witness for C1: an all-`Noop` block whose parent is a `Function` still
breaks. -/
theorem print_block_break_iff_witness :
    Document.groupBreakFlag
        (print_block testFormatter ⟨0, 0⟩ [Statement.Noop ⟨0, 0⟩] ⟨1, 1⟩) =
      some true :=
  (print_block_break_iff testFormatter ⟨0, 0⟩ [Statement.Noop ⟨0, 0⟩] ⟨1, 1⟩).2.mpr
    (Or.inr (Or.inl (by decide)))

/-- Witness for C2: collection of the concrete two-call expression. -/
theorem collect_method_call_chain_correct_witness :
    (collect_method_call_chain testChainExpr =
      if ((walkSpec testChainExpr).1).isEmpty then none
      else some ⟨(walkSpec testChainExpr).2, ((walkSpec testChainExpr).1).reverse⟩) ∧
    collect_method_call_chain testChainExpr = some testChain :=
  ⟨collect_method_call_chain_correct testChainExpr, rfl⟩

/-- Witness for C3: a bare single parameter is hugged. -/
theorem should_hug_the_only_parameter_iff_witness :
    should_hug_the_only_parameter testFormatter testSingleParameterList = true :=
  (should_hug_the_only_parameter_iff testFormatter testSingleParameterList).mpr
    ⟨⟨⟨1, 4⟩, [], none, [], false⟩, rfl, rfl, rfl, rfl, by simp⟩

/-- Witness for C7: a one-node block rendered concretely. -/
theorem print_block_of_nodes_spec_witness :
    print_block_of_nodes testFormatter ⟨0, 0⟩ [⟨⟨1, 2⟩, 0⟩] ⟨3, 4⟩ true =
      Document.Group [Document.Str "\x7b",
        Document.Indent [Document.Line LineKind.hard, Document.Empty],
        Document.Line LineKind.hard, Document.Str "\x7d"] false := by
  rw [print_block_of_nodes_spec]
  rfl

/-- Witness for C8: the first exclusion does not match, the second does,
and `is_excluded` still reports the match. -/
theorem is_excluded_any_match_witness :
    is_excluded neverGlob ["a", "b"] testExclusions =
      testExclusions.any (exclusionMatches neverGlob ["a", "b"]) ∧
    is_excluded neverGlob ["a", "b"] testExclusions = true :=
  ⟨is_excluded_any_match neverGlob ["a", "b"] testExclusions, rfl⟩

/-- Witness for C10: the two-parameter list joins without trailing data,
and flipping the blank-line oracle at the final parameter's span alone
leaves the printed list unchanged. -/
theorem printed_parameters_no_trailing_separator_witness :
    (printedParameters testFormatter false testParameterList.parameters =
      joinParameters testFormatter false testParameterList.parameters) ∧
    printedParameters (withNextLineEmpty testFormatter testBlankAfterLast) false
        ([⟨⟨1, 4⟩, [], none, [], false⟩] ++ [⟨⟨5, 9⟩, [], none, [], false⟩]) =
      printedParameters testFormatter false
        ([⟨⟨1, 4⟩, [], none, [], false⟩] ++ [⟨⟨5, 9⟩, [], none, [], false⟩]) :=
  ⟨(printed_parameters_no_trailing_separator testFormatter false).1
      testParameterList.parameters,
   (printed_parameters_no_trailing_separator testFormatter false).2
      testBlankAfterLast ⟨⟨5, 9⟩, [], none, [], false⟩
      [⟨⟨1, 4⟩, [], none, [], false⟩] (by decide)⟩

end Mago
